import Mathlib

/-!
Verification of the GetSeq Ensembl REST client (`getseq_cmd.py`).

The development shallowly embeds the request-batching, rate-limiting and
region-normalization logic of `EnsemblRestClient`.  Python strings are
modelled as Lean `String` (with `List Char` worker functions for the
`str.replace` loop), Python dicts keyed by strings as association lists with
replace-in-place update (Python 3.7+ dicts preserve insertion order and an
update of an existing key keeps its position), wall-clock time as `ℚ` with an
idealized clock (`time.time()` after `time.sleep(d)` returns `now + d`), and
the remote server as an oracle function from request payloads to responses.
-/

namespace GetSeq

/-! ### Python `str` primitives -/

/-- Boolean test that `pat` is an initial segment of `l` (the character-level
match used when scanning for a substring occurrence). -/
def startsWith : List Char → List Char → Bool
  | [], _ => true
  | _ :: _, [] => false
  | p :: ps, c :: cs => p == c && startsWith ps cs

/-- Python `pat in s` on character lists: some position of `l` starts with `pat`. -/
def hasSubstr (pat : List Char) : List Char → Bool
  | [] => startsWith pat []
  | c :: cs => startsWith pat (c :: cs) || hasSubstr pat cs

/-- Worker for Python `str.replace`: scan left to right, replace each
non-overlapping occurrence of `pat` by `rep` and continue after it.  The
`fuel` argument (instantiated with the string length, which bounds the number
of consumed characters) makes the recursion structural; the `!pat.isEmpty`
guard is irrelevant to this program, which only replaces `"chrM"` and `"chr"`. -/
def replaceGo (pat rep : List Char) : Nat → List Char → List Char
  | _, [] => []
  | 0, l => l
  | fuel + 1, c :: cs =>
    if startsWith pat (c :: cs) && !pat.isEmpty then
      rep ++ replaceGo pat rep fuel (List.drop (pat.length - 1) cs)
    else
      c :: replaceGo pat rep fuel cs

/-- Python `s.replace(pat, rep)` (also the effect of pandas
`Series.str.replace` at one cell: the patterns `"chrM"`/`"chr"` contain no
regex metacharacters, so regex and literal replacement coincide). -/
def pyReplace (s pat rep : String) : String :=
  String.mk (replaceGo pat.toList rep.toList s.toList.length s.toList)

/-- Python `str.isdigit` restricted to ASCII: nonempty and all characters
are decimal digits.  Applied to `str(start_cell)` in `get_regions`. -/
def pyIsDigit (s : String) : Bool :=
  !s.toList.isEmpty && s.toList.all Char.isDigit

/-- Python string `<=`: lexicographic comparison of code points. -/
def lexLe : List Char → List Char → Bool
  | [], _ => true
  | _ :: _, [] => false
  | a :: as, b :: bs =>
    decide (a.toNat < b.toNat) || (decide (a.toNat = b.toNat) && lexLe as bs)

/-- Python `a <= b` on strings (code-point lexicographic order). -/
def strLeB (a b : String) : Bool := lexLe a.toList b.toList

/-! ### Data model -/

/-- One parsed data row of the BED input: columns 0, 1, 2 named
`chrom`, `start`, `end` at line 151 of the source (`end` is a Lean keyword,
hence `end_`).  In a valid run the coordinate cells are non-negative
integers (spec §3, RawRegion). -/
structure Row where
  chrom : String
  start : Nat
  end_ : Nat
deriving DecidableEq

/-- One raw input row before header detection: the three cells as read,
kept as strings (`str(start_cell)` is what lines 129-138 inspect). -/
structure RawRow where
  chrom : String
  start : String
  end_ : String
deriving DecidableEq

/-- The fatal outcomes of the client, one per Python exception / exit path:
`emptyData` for `pandas.errors.EmptyDataError` on input with no rows (the
`except` clause at lines 141-145 swallows it and the subsequent use of the
unbound `reads` crashes), `malformedInput` for the `sys.exit(1)` at line 138,
`indexError` for the uncaught `regions_list[0][:10]` at line 173 when no
region batch was parsed, `http` for `requests.raise_for_status()` at line 48,
and `decode` for a `request.json()` failure at line 51. -/
inductive PyErr where
  | emptyData
  | malformedInput
  | indexError
  | http (status : Nat)
  | decode
deriving DecidableEq

/-- Decidable equality of `Except` values, so that concrete runs of the
embedded operations can be checked by `decide`. -/
instance instDecEqExcept {ε α : Type} [DecidableEq ε] [DecidableEq α] :
    DecidableEq (Except ε α) := fun a b =>
  match a, b with
  | .error e, .error f =>
    if h : e = f then isTrue (by subst h; rfl) else isFalse (by simp [h])
  | .error _, .ok _ => isFalse (by simp)
  | .ok _, .error _ => isFalse (by simp)
  | .ok x, .ok y =>
    if h : x = y then isTrue (by subst h; rfl) else isFalse (by simp [h])

/-- One sequence record of the JSON response: the `id` and `seq` fields used
by the output formatter (`">{id}\n{seq}"`). -/
structure SeqRecord where
  id : String
  seq : String
deriving DecidableEq

/-- The observable outcome of one HTTP exchange: a success status whose JSON
body decodes to a list of records, a success status with an undecodable
body, or a non-success status. -/
inductive HttpResp where
  | ok (data : List SeqRecord)
  | badJson
  | err (status : Nat)
deriving DecidableEq

/-- Whether the exchange succeeded end to end. -/
def HttpResp.isOk : HttpResp → Bool
  | .ok _ => true
  | _ => false

/-- The rate-limiter state of `EnsemblRestClient`: `self.req_count` and
`self.last_req` (initialised to `0` and `0` in `__init__`). -/
structure RLState where
  req_count : Nat
  last_req : ℚ
deriving DecidableEq

/-- One species entry of the `/info/species` response, restricted to the two
fields `get_genomes` reads. -/
structure Genome where
  name : String
  display_name : String
deriving DecidableEq

/-- HTTP method chosen at lines 41-45. -/
inductive Method where
  | get
  | post
deriving DecidableEq

/-- The outbound request assembled by `perform_rest_action`. -/
structure HttpRequest where
  method : Method
  url : String
  headers : List (String × String)
  body : Option String
deriving DecidableEq

/-! ### Region normalization (`get_regions`, lines 115-176) -/

/-- Chromosome canonicalization of lines 158-159: replace every occurrence
of the substring `"chrM"` by `"MT"`, then delete every occurrence of the
substring `"chr"` (Python `str.replace` replaces all occurrences, not just a
prefix). -/
def canonChrom (c : String) : String :=
  pyReplace (pyReplace c "chrM" "MT") "chr" ""

/-- Line 156: `reads['chrom'].astype(str).str.contains('chr').any()` —
some chromosome cell contains the substring `"chr"`. -/
def chrAny (rows : List Row) : Bool :=
  rows.any fun r => hasSubstr "chr".toList r.chrom.toList

/-- Lines 156-161: when any chromosome contains `"chr"` the whole column is
rewritten by `canonChrom`; otherwise the rows pass through unchanged. -/
def applyCanon (rows : List Row) : List Row :=
  if chrAny rows then
    rows.map fun r => { r with chrom := canonChrom r.chrom }
  else
    rows

/-- Lines 165-166: the `region` column,
`chrom.astype(str) + ':' + start.astype(str) + '..' + end.astype(str)`. -/
def regionStr (r : Row) : String :=
  r.chrom ++ ":" ++ toString r.start ++ ".." ++ toString r.end_

/-- Worker for the chunking `groupby(np.arange(len(reads)) // 50)` of
line 164: split a list into consecutive groups of `k`.  `fuel` (instantiated
with the list length) makes the recursion structural. -/
def chunksGo (k : Nat) : Nat → List Row → List (List Row)
  | _, [] => []
  | 0, _ :: _ => []
  | fuel + 1, a :: l => List.take k (a :: l) :: chunksGo k fuel (List.drop k (a :: l))

/-- Line 164: the ordered batches of at most 50 rows (groupby keys
`0, 1, 2, …` are emitted in ascending order, i.e. chunks in input order). -/
def chunk50 (l : List Row) : List (List Row) := chunksGo 50 l.length l

/-- Python `dict` update at one key (line 168, `regions.update({key: value})`):
an existing key keeps its position and gets the new value, a new key is
appended. -/
def dictUpdate (d : List (String × List String)) (k : String) (v : List String) :
    List (String × List String) :=
  if d.any fun p => p.1 == k then
    d.map fun p => if p.1 == k then (p.1, v) else p
  else
    d ++ [(k, v)]

/-- One iteration of the loop at lines 164-169: insert a batch's region list
into the dict under its first region string (`subreads.iloc[0]['region']`).
An empty batch never arises from the chunking. -/
def dictStep (regions : List (String × List String)) (batch : List String) :
    List (String × List String) :=
  match batch with
  | [] => regions
  | k :: rest => dictUpdate regions k (k :: rest)

/-- The loop at lines 164-169 starting from `regions = {}` (line 149). -/
def dictBuild (batches : List (List String)) : List (String × List String) :=
  batches.foldl dictStep []

/-- Lines 149-169 of `get_regions`: canonicalize chromosomes, chunk the rows
into groups of 50, build each group's region strings, and collect the groups
in a dict keyed by each group's first region string. -/
def get_regions (rows : List Row) : List (String × List String) :=
  dictBuild ((chunk50 (applyCanon rows)).map (List.map regionStr))

/-- Lines 121-138: header detection on the raw table.  An empty table makes
`pd.read_csv` raise `EmptyDataError`, which the `except` clause swallows
without re-raising, after which the unbound `reads` crashes the process; a
numeric first `start` cell keeps every row; the literal cells `"start"` or
`"Start"` drop the first row; anything else exits with an error. -/
def checkHeader : List RawRow → Except PyErr (List RawRow)
  | [] => .error .emptyData
  | r :: rs =>
    if pyIsDigit r.start then .ok (r :: rs)
    else if r.start == "start" || r.start == "Start" then .ok rs
    else .error .malformedInput

/-- Decimal value of a digits-only cell (how pandas materialises a numeric
column). -/
def digitsToNat (s : String) : Nat :=
  s.toList.foldl (fun n c => n * 10 + (c.toNat - 48)) 0

/-- Typed view of a raw row whose coordinate cells are numeric. -/
def toRow (r : RawRow) : Row :=
  ⟨r.chrom, digitsToNat r.start, digitsToNat r.end_⟩

/-- The whole of `get_regions` including its logging epilogue: after the
dict is built, line 173 evaluates `regions_list[0][:10]`, which raises an
uncaught `IndexError` whenever zero batches were parsed. -/
def get_regions_pipeline (raw : List RawRow) : Except PyErr (List (String × List String)) :=
  match checkHeader raw with
  | .error e => .error e
  | .ok rows =>
    match get_regions (rows.map toRow) with
    | [] => .error .indexError
    | r :: rs => .ok (r :: rs)

/-! ### Rate limiter and REST action (lines 23-54) -/

/-- Lines 31-36: when the request counter has reached the ceiling, sleep
away the remainder of a one-second window since the last recorded request,
then record the post-sleep time and reset the counter.  Returns the sleep
duration together with the updated state. -/
def throttle (reqs_per_sec : Nat) (st : RLState) (now : ℚ) : ℚ × RLState :=
  if st.req_count ≥ reqs_per_sec then
    let delta := now - st.last_req
    let slp := if delta < 1 then 1 - delta else 0
    (slp, ⟨0, now + slp⟩)
  else
    (0, st)

/-- Lines 29-54 of `perform_rest_action` as a state transition: throttle,
perform the exchange, and on success (`request.ok` and a decodable JSON
body) increment the counter; `raise_for_status()` maps to `PyErr.http` and a
`request.json()` failure to `PyErr.decode`.  Returns the sleep duration, the
post-call limiter state and the call's outcome. -/
def perform_rest_action (reqs_per_sec : Nat) (st : RLState) (now : ℚ) (resp : HttpResp) :
    ℚ × RLState × Except PyErr (List SeqRecord) :=
  let t := throttle reqs_per_sec st now
  match resp with
  | .ok data => (t.1, ⟨t.2.req_count + 1, t.2.last_req⟩, .ok data)
  | .badJson => (t.1, t.2, .error .decode)
  | .err status => (t.1, t.2, .error (.http status))

/-- Lines 25-28: `urllib.parse.urlencode` over the insertion-ordered params
dict (the values used by this program need no percent-escaping). -/
def urlencode (params : List (String × String)) : String :=
  String.intercalate "&" (params.map fun p => p.1 ++ "=" ++ p.2)

/-- `json.dumps` of a string-keyed dict of string lists, with the default
separators (the region strings contain no characters needing escapes). -/
def json_dumps_dict (d : List (String × List String)) : String :=
  "\x7b" ++
    String.intercalate ", "
      (d.map fun p =>
        "\"" ++ p.1 ++ "\": [" ++
          String.intercalate ", " (p.2.map fun s => "\"" ++ s ++ "\"") ++ "]") ++
    "\x7d"

/-- Lines 25-28 and 41-45: the request assembled by `perform_rest_action`.
`if regions:` is Python truthiness — `None` and the empty dict both select
the GET branch; a nonempty dict selects POST with the JSON-encoded dict as
body. -/
def build_request (server endpoint : String) (hdrs params : List (String × String))
    (regions : Option (List (String × List String))) : HttpRequest :=
  let ep := if params.isEmpty then endpoint ++ "?" else endpoint ++ "?" ++ urlencode params
  match regions with
  | some d =>
    if d.isEmpty then ⟨.get, server ++ ep, hdrs, none⟩
    else ⟨.post, server ++ ep, hdrs, some (json_dumps_dict d)⟩
  | none => ⟨.get, server ++ ep, hdrs, none⟩

/-- Lines 92-104, `get_sequences`: the request built for one batch —
endpoint `/sequence/region/{species}`, JSON content-type headers, the three
query params in dict insertion order, and the body `{'regions': regions}`. -/
def get_sequences_request (server species assembly : String) (regions : List String)
    (upstream downstream : Nat) : HttpRequest :=
  build_request server ("/sequence/region/" ++ species)
    [("Content-Type", "application/json"), ("Accept", "application/json")]
    [("coord_system_version", assembly), ("expand_3prime", toString downstream),
      ("expand_5prime", toString upstream)]
    (some [("regions", regions)])

/-- Lines 107-113, `submit_regions`: iterate the region dict in order, fetch
each batch, and extend one accumulator list; an exception raised inside
`perform_rest_action` propagates immediately, discarding the accumulator.
The server is abstracted as an oracle `fetch` from a batch's region list to
the exchange outcome.  Returns the payloads actually sent together with the
overall outcome. -/
def submit_regions (fetch : List String → HttpResp) :
    List (String × List String) → List (List String) × Except PyErr (List SeqRecord)
  | [] => ([], .ok [])
  | (_, v) :: rest =>
    match fetch v with
    | .ok recs =>
      let r := submit_regions fetch rest
      (v :: r.1, r.2.map fun later => recs ++ later)
    | .badJson => ([v], .error .decode)
    | .err status => ([v], .error (.http status))

/-! ### Catalog query (`get_genomes`, lines 56-74) -/

/-- Lines 69-74: sort the species entries by `name` (Python `sorted` with a
key is a stable sort under the string order `strLeB`) and emit the
`(name, display_name)` pairs in that order. -/
def get_genomes (species : List Genome) : List (String × String) :=
  (species.mergeSort fun a b => strLeB a.name b.name).map fun g => (g.name, g.display_name)

/-! ### Definitions following the claim wording (for refinement comparison) -/

/-- Chromosome canonicalization as claim C2 words it: the literal value
`"chrM"` is rewritten to `"MT"`, and otherwise a leading `"chr"` is
stripped.  Stated from the claim, not from the code. -/
def claimCanonChrom (c : String) : String :=
  if c == "chrM" then "MT"
  else if startsWith "chr".toList c.toList then String.mk (c.toList.drop 3)
  else c

/-- A concrete server oracle used to witness the all-or-nothing behaviour:
the batch `["B"]` gets HTTP 500, every other batch succeeds. -/
def demoFetch : List String → HttpResp :=
  fun v => if v = ["B"] then .err 500 else .ok [⟨"x", "ACGT"⟩]

/-! ### Helper lemmas on the string primitives -/

theorem startsWith_append_left (p t : List Char) :
    ∀ l : List Char, startsWith (p ++ t) l = true → startsWith p l = true := by
  induction p with
  | nil => intro l _; rfl
  | cons a as ih =>
    intro l h
    cases l with
    | nil => simp [startsWith] at h
    | cons c cs =>
      simp only [List.cons_append, startsWith, Bool.and_eq_true] at h ⊢
      exact ⟨h.1, ih cs h.2⟩

theorem hasSubstr_of_append (p t : List Char) :
    ∀ l : List Char, hasSubstr (p ++ t) l = true → hasSubstr p l = true := by
  intro l
  induction l with
  | nil =>
    intro h
    simp only [hasSubstr] at h ⊢
    exact startsWith_append_left p t [] h
  | cons c cs ih =>
    intro h
    simp only [hasSubstr, Bool.or_eq_true] at h ⊢
    rcases h with h | h
    · exact Or.inl (startsWith_append_left p t _ h)
    · exact Or.inr (ih h)

theorem replaceGo_of_hasSubstr_eq_false (pat rep : List Char) :
    ∀ (l : List Char) (fuel : Nat), hasSubstr pat l = false → replaceGo pat rep fuel l = l := by
  intro l
  induction l with
  | nil => intro fuel _; cases fuel <;> rfl
  | cons c cs ih =>
    intro fuel h
    rw [hasSubstr, Bool.or_eq_false_iff] at h
    cases fuel with
    | zero => rfl
    | succ n =>
      rw [replaceGo, if_neg (by simp [h.1]), ih n h.2]

theorem pyReplace_of_no_occurrence (s pat rep : String)
    (h : hasSubstr pat.toList s.toList = false) : pyReplace s pat rep = s := by
  unfold pyReplace
  rw [replaceGo_of_hasSubstr_eq_false pat.toList rep.toList s.toList s.toList.length h]
  rfl

/-! ### Claim theorems -/

/-- Claim C8 (counterexample): chromosome canonicalization is not idempotent
on every string — deleting `"chr"` substrings can create a fresh `"chr"`
occurrence, as in `"cchrhr" → "chr" → ""`. -/
theorem canonChrom_not_idempotent :
    canonChrom "cchrhr" = "chr" ∧ canonChrom (canonChrom "cchrhr") = "" ∧
      canonChrom (canonChrom "cchrhr") ≠ canonChrom "cchrhr" := by decide

/-- Claim C8 (amended): chromosome canonicalization is idempotent on every
chromosome string whose canonical form no longer contains the substring
`"chr"` — in particular on every string the claim's examples cover
(`"chr1" → "1" → "1"`, `"chrM" → "MT" → "MT"`). -/
theorem canonChrom_idempotent_on_fixed (c : String)
    (h : hasSubstr "chr".toList (canonChrom c).toList = false) :
    canonChrom (canonChrom c) = canonChrom c := by
  have hM : hasSubstr "chrM".toList (canonChrom c).toList = false := by
    cases hq : hasSubstr "chrM".toList (canonChrom c).toList
    · rfl
    · exfalso
      have he : "chrM".toList = "chr".toList ++ ['M'] := by decide
      have := hasSubstr_of_append "chr".toList ['M'] (canonChrom c).toList (he ▸ hq)
      rw [this] at h
      exact Bool.noConfusion h
  have e : ∀ s, canonChrom s = pyReplace (pyReplace s "chrM" "MT") "chr" "" := fun _ => rfl
  rw [e (canonChrom c), pyReplace_of_no_occurrence _ _ _ hM,
    pyReplace_of_no_occurrence _ _ _ h]

/-- Claim C8 (witness): the amended idempotence at `"chr1"`, whose canonical
form `"1"` is `"chr"`-free. -/
theorem canonChrom_idempotent_witness :
    canonChrom (canonChrom "chr1") = canonChrom "chr1" ∧ canonChrom "chr1" = "1" :=
  ⟨canonChrom_idempotent_on_fixed "chr1" (by decide), by decide⟩

/-- Claim C3 (counterexample): the header tokens are matched literally, not
case-insensitively.  A first row whose `start` cell is `"START"` — a
case-insensitive match of `"start"` — is not dropped as a header: the
process exits with the malformed-input error. -/
theorem header_detection_not_case_insensitive :
    checkHeader [⟨"c", "START", "e"⟩] = .error .malformedInput ∧
      checkHeader [⟨"c", "START", "e"⟩] ≠ .ok [] ∧
      "START".toList.map Char.toLower = "start".toList := by decide

/-- Claim C3 (amended): if the first data row's `start` cell is numeric the
row is retained; if it is one of the literal header tokens `"start"` or
`"Start"` the row is dropped; any other non-numeric value (including other
capitalizations such as `"START"`) fails with the malformed-input error
before any region is parsed. -/
theorem header_detection (r : RawRow) (rs : List RawRow) :
    (pyIsDigit r.start = true → checkHeader (r :: rs) = .ok (r :: rs)) ∧
    ((r.start = "start" ∨ r.start = "Start") → checkHeader (r :: rs) = .ok rs) ∧
    (pyIsDigit r.start = false → r.start ≠ "start" → r.start ≠ "Start" →
      checkHeader (r :: rs) = .error .malformedInput) := by
  refine ⟨?_, ?_, ?_⟩
  · intro h
    simp [checkHeader, h]
  · intro h
    rcases h with h | h <;>
      simp [checkHeader, h, show pyIsDigit "start" = false from by decide,
        show pyIsDigit "Start" = false from by decide]
  · intro h h1 h2
    simp [checkHeader, h, h1, h2]

/-- Claim C3 (witness): a numeric first row is retained; a literal `"start"`
header row is dropped. -/
theorem header_detection_witness :
    checkHeader [⟨"1", "100", "200"⟩] = .ok [⟨"1", "100", "200"⟩] ∧
      checkHeader [⟨"chrom", "start", "end"⟩, ⟨"1", "5", "9"⟩] = .ok [⟨"1", "5", "9"⟩] :=
  ⟨(header_detection ⟨"1", "100", "200"⟩ []).1 (by decide),
    (header_detection ⟨"chrom", "start", "end"⟩ [⟨"1", "5", "9"⟩]).2.1 (Or.inl rfl)⟩

/-- Claim C5: when the request counter has reached the ceiling, the limiter
sleeps away whatever is left of one second since the last recorded request
(nothing when a full second has passed), resets the counter to zero and
anchors `last_req` at the post-sleep time; below the ceiling it does nothing
and introduces no delay. -/
theorem throttle_step_spec (reqs_per_sec : Nat) (st : RLState) (now : ℚ) :
    (reqs_per_sec ≤ st.req_count →
      throttle reqs_per_sec st now =
        ((if now - st.last_req < 1 then 1 - (now - st.last_req) else 0),
          ⟨0, now + (if now - st.last_req < 1 then 1 - (now - st.last_req) else 0)⟩)) ∧
    (st.req_count < reqs_per_sec → throttle reqs_per_sec st now = (0, st)) := by
  constructor
  · intro h
    unfold throttle
    rw [if_pos h]
  · intro h
    unfold throttle
    rw [if_neg (not_le.mpr h)]

/-- Claim C5 (witness): at the ceiling with half a second elapsed the
limiter sleeps the remaining half second and re-anchors at `1`; below the
ceiling it leaves the state alone. -/
theorem throttle_step_spec_witness :
    throttle 15 ⟨15, 0⟩ (1/2 : ℚ) = (1/2, ⟨0, 1⟩) ∧
      throttle 15 ⟨3, 0⟩ (1/2 : ℚ) = (0, ⟨3, 0⟩) :=
  ⟨((throttle_step_spec 15 ⟨15, 0⟩ (1/2)).1 (by decide)).trans (by decide!),
    (throttle_step_spec 15 ⟨3, 0⟩ (1/2)).2 (by decide)⟩

/-- Claim C6: a present body (the `{'regions': …}` dict built by
`get_sequences`) makes the client issue a POST whose body is the
JSON-encoded dict, under the `Content-Type: application/json` header; with
no body it issues a GET with no body. -/
theorem request_method_selection (server species assembly endpoint : String)
    (regions : List String) (upstream downstream : Nat)
    (hdrs params : List (String × String)) :
    ((get_sequences_request server species assembly regions upstream downstream).method =
        .post ∧
      (get_sequences_request server species assembly regions upstream downstream).body =
        some (json_dumps_dict [("regions", regions)]) ∧
      ("Content-Type", "application/json") ∈
        (get_sequences_request server species assembly regions upstream downstream).headers) ∧
    ((build_request server endpoint hdrs params none).method = .get ∧
      (build_request server endpoint hdrs params none).body = none) := by
  refine ⟨⟨?_, ?_, ?_⟩, ?_, ?_⟩ <;> simp [get_sequences_request, build_request]

/-- Claim C7: the code crashes on zero-region input instead of returning an
empty batch sequence — a header-only table reaches the logging line
`regions_list[0][:10]`, which raises `IndexError`, and a fully empty table
makes `pd.read_csv` raise `EmptyDataError`, which the `except` clause
swallows before the unbound `reads` crashes the process.  Retrieval over an
empty batch dict would indeed issue no requests and produce no records. -/
theorem empty_input_crashes :
    get_regions_pipeline [⟨"chrom", "start", "end"⟩] = .error .indexError ∧
      get_regions_pipeline [] = .error .emptyData ∧
      ∀ fetch : List String → HttpResp, submit_regions fetch [] = ([], .ok []) :=
  ⟨rfl, rfl, fun _ => rfl⟩

/-- Claim C10 (counterexample): with a configured ceiling of `0` the counter
does not stay within `[0, ceiling]` — starting from the initial state, one
successful call drives it to `1`. -/
theorem req_count_exceeds_zero_ceiling :
    ((⟨0, 0⟩ : RLState).req_count ≤ 0) ∧
      (perform_rest_action 0 ⟨0, 0⟩ 0 (.ok [])).2.1.req_count = 1 ∧
      ¬((perform_rest_action 0 ⟨0, 0⟩ 0 (.ok [])).2.1.req_count ≤ 0) := by decide!

/-- Claim C10 (amended): the request counter is incremented exactly on a
call that returns a success status with a decodable JSON body (on top of
whatever reset the throttle performed); a failed call never increments it;
and provided the configured ceiling is at least `1` — as the default `15`
is — the counter stays between `0` and the ceiling inclusive. -/
theorem req_count_increment_spec (reqs_per_sec : Nat) (st : RLState) (now : ℚ)
    (resp : HttpResp) :
    (resp.isOk = false →
      (perform_rest_action reqs_per_sec st now resp).2.1.req_count ≤ st.req_count) ∧
    (∀ data, resp = .ok data →
      (perform_rest_action reqs_per_sec st now resp).2.1.req_count =
        (throttle reqs_per_sec st now).2.req_count + 1) ∧
    (1 ≤ reqs_per_sec → st.req_count ≤ reqs_per_sec →
      (perform_rest_action reqs_per_sec st now resp).2.1.req_count ≤ reqs_per_sec) := by
  have hth : (throttle reqs_per_sec st now).2.req_count = 0 ∨
      ((throttle reqs_per_sec st now).2.req_count = st.req_count ∧
        st.req_count < reqs_per_sec) := by
    unfold throttle
    split
    · exact Or.inl rfl
    · exact Or.inr ⟨rfl, not_le.mp (by assumption)⟩
  refine ⟨?_, ?_, ?_⟩
  · intro h
    cases resp with
    | ok data => simp [HttpResp.isOk] at h
    | badJson =>
      show (throttle reqs_per_sec st now).2.req_count ≤ st.req_count
      rcases hth with h0 | ⟨h0, _⟩ <;> omega
    | err status =>
      show (throttle reqs_per_sec st now).2.req_count ≤ st.req_count
      rcases hth with h0 | ⟨h0, _⟩ <;> omega
  · intro data hr
    subst hr
    rfl
  · intro h1 h2
    cases resp with
    | ok data =>
      show (throttle reqs_per_sec st now).2.req_count + 1 ≤ reqs_per_sec
      rcases hth with h0 | ⟨h0, h0'⟩ <;> omega
    | badJson =>
      show (throttle reqs_per_sec st now).2.req_count ≤ reqs_per_sec
      rcases hth with h0 | ⟨h0, _⟩ <;> omega
    | err status =>
      show (throttle reqs_per_sec st now).2.req_count ≤ reqs_per_sec
      rcases hth with h0 | ⟨h0, _⟩ <;> omega

/-- Claim C10 (witness): below the ceiling, a successful call increments the
counter to `4 ≤ 15`, and a call with an undecodable body leaves it at `3`. -/
theorem req_count_increment_witness :
    (perform_rest_action 15 ⟨3, 0⟩ 0 (.ok [])).2.1.req_count =
        (throttle 15 ⟨3, 0⟩ 0).2.req_count + 1 ∧
      (perform_rest_action 15 ⟨3, 0⟩ 0 (.ok [])).2.1.req_count ≤ 15 ∧
      (perform_rest_action 15 ⟨3, 0⟩ 0 .badJson).2.1.req_count ≤ 3 :=
  ⟨(req_count_increment_spec 15 ⟨3, 0⟩ 0 (.ok [])).2.1 [] rfl,
    (req_count_increment_spec 15 ⟨3, 0⟩ 0 (.ok [])).2.2 (by decide) (by decide),
    (req_count_increment_spec 15 ⟨3, 0⟩ 0 .badJson).1 rfl⟩

/-- Claim C4: a non-success HTTP status on any batch call turns the whole
submission into an error carrying that status: the batches before it (all
successful) and the failing batch are the only payloads sent, no request is
made for later batches, and no record — neither from earlier successful
batches nor from later ones — is emitted. -/
theorem submit_regions_all_or_nothing (fetch : List String → HttpResp)
    (pre : List (String × List String)) (kv : String × List String)
    (post : List (String × List String)) (status : Nat)
    (hpre : ∀ b ∈ pre, (fetch b.2).isOk = true)
    (hfail : fetch kv.2 = .err status) :
    submit_regions fetch (pre ++ kv :: post) =
      (pre.map Prod.snd ++ [kv.2], .error (.http status)) := by
  induction pre with
  | nil =>
    obtain ⟨k, v⟩ := kv
    simp only [List.nil_append, List.map_nil]
    simp [submit_regions, hfail]
  | cons b pre ih =>
    obtain ⟨bk, bv⟩ := b
    have hb : (fetch bv).isOk = true := hpre (bk, bv) (List.mem_cons_self _ _)
    obtain ⟨recs, hrecs⟩ : ∃ recs, fetch bv = .ok recs := by
      cases hq : fetch bv with
      | ok d => exact ⟨d, rfl⟩
      | badJson => rw [hq] at hb; exact Bool.noConfusion hb
      | err s => rw [hq] at hb; exact Bool.noConfusion hb
    have ih' := ih fun p hp => hpre p (List.mem_cons_of_mem _ hp)
    simp only [List.cons_append, submit_regions, hrecs, List.append_eq]
    rw [ih']
    simp [Except.map]

/-- Claim C4 (witness): with three batches where the second gets HTTP 500,
the submission sends the first two payloads only and yields the
status-carrying error, emitting no records at all. -/
theorem submit_regions_all_or_nothing_witness :
    submit_regions demoFetch [("a", ["A"]), ("b", ["B"]), ("c", ["C"])] =
      ([["A"], ["B"]], .error (.http 500)) := by
  have h := submit_regions_all_or_nothing demoFetch [("a", ["A"])] ("b", ["B"])
    [("c", ["C"])] 500 (by decide) (by decide)
  simpa using h

/-! ### Helper lemmas on chunking and the region dict -/

theorem chunksGo_flatten (k : Nat) (hk : 0 < k) :
    ∀ (fuel : Nat) (l : List Row), l.length ≤ fuel → (chunksGo k fuel l).flatten = l := by
  intro fuel
  induction fuel with
  | zero =>
    intro l h
    cases l with
    | nil => rfl
    | cons a l => simp at h
  | succ n ih =>
    intro l h
    cases l with
    | nil => rfl
    | cons a l =>
      simp only [chunksGo, List.flatten_cons]
      rw [ih (List.drop k (a :: l))
        (by rw [List.length_drop]; simp only [List.length_cons] at h ⊢; omega)]
      exact List.take_append_drop k (a :: l)

theorem chunksGo_length (k : Nat) (hk : 0 < k) :
    ∀ (fuel : Nat) (l : List Row), l.length ≤ fuel →
      (chunksGo k fuel l).length = (l.length + k - 1) / k := by
  intro fuel
  induction fuel with
  | zero =>
    intro l h
    cases l with
    | nil => simp [chunksGo, Nat.div_eq_of_lt (show k - 1 < k by omega)]
    | cons a l => simp at h
  | succ n ih =>
    intro l h
    cases l with
    | nil => simp [chunksGo, Nat.div_eq_of_lt (show k - 1 < k by omega)]
    | cons a l =>
      simp only [chunksGo, List.length_cons]
      rw [ih (List.drop k (a :: l))
        (by rw [List.length_drop]; simp only [List.length_cons] at h ⊢; omega)]
      rw [List.length_drop]
      simp only [List.length_cons]
      have h1 : l.length + 1 + k - 1 = (l.length + 1 - 1) + k := by omega
      rw [h1, Nat.add_div_right _ hk]
      by_cases hkn : k ≤ l.length + 1
      · have h2 : l.length + 1 - k + k - 1 = l.length + 1 - 1 := by omega
        rw [h2]
      · have h2 : l.length + 1 - k = 0 := by omega
        rw [h2, Nat.div_eq_of_lt (show 0 + k - 1 < k by omega),
          Nat.div_eq_of_lt (show l.length + 1 - 1 < k by omega)]

theorem chunksGo_ne_nil (k : Nat) (hk : 0 < k) :
    ∀ (fuel : Nat) (l : List Row), ∀ b ∈ chunksGo k fuel l, b ≠ [] := by
  intro fuel
  induction fuel with
  | zero =>
    intro l b hb
    cases l <;> simp [chunksGo] at hb
  | succ n ih =>
    intro l b hb
    cases l with
    | nil => simp [chunksGo] at hb
    | cons a l =>
      simp only [chunksGo, List.mem_cons] at hb
      rcases hb with rfl | hb
      · obtain ⟨m, rfl⟩ : ∃ m, k = m + 1 := ⟨k - 1, by omega⟩
        simp
      · exact ih _ b hb

theorem chunk50_eq_nil_iff (l : List Row) : chunk50 l = [] ↔ l = [] := by
  cases l with
  | nil => simp [chunk50, chunksGo]
  | cons a l => simp [chunk50, chunksGo]

theorem applyCanon_length (rows : List Row) : (applyCanon rows).length = rows.length := by
  unfold applyCanon
  split <;> simp

theorem applyCanon_eq_nil_iff (rows : List Row) : applyCanon rows = [] ↔ rows = [] := by
  unfold applyCanon
  split <;> simp

theorem dictUpdate_of_not_mem (d : List (String × List String)) (k : String)
    (v : List String) (h : ∀ p ∈ d, p.1 ≠ k) :
    dictUpdate d k v = d ++ [(k, v)] := by
  have hfalse : (d.any fun p => p.1 == k) = false := by
    rw [List.any_eq_false]
    intro p hp
    simpa using h p hp
  unfold dictUpdate
  rw [hfalse]
  simp

theorem dictBuild_go (batches : List (List String)) :
    ∀ d : List (String × List String),
      (∀ b ∈ batches, b ≠ []) →
      (d.map Prod.fst ++ batches.map fun b => b.headD "").Nodup →
      batches.foldl dictStep d = d ++ (batches.map fun b => (b.headD "", b)) := by
  induction batches with
  | nil =>
    intro d _ _
    simp
  | cons b rest ih =>
    intro d hne hnd
    obtain ⟨k, t, rfl⟩ : ∃ k t, b = k :: t := by
      cases b with
      | nil => exact absurd rfl (hne [] (List.mem_cons_self _ _))
      | cons k t => exact ⟨k, t, rfl⟩
    simp only [List.map_cons, List.headD_cons] at hnd
    have hk : ∀ p ∈ d, p.1 ≠ k := by
      intro p hp heq
      have hmem : p.1 ∈ d.map Prod.fst := List.mem_map_of_mem Prod.fst hp
      have hdisj := (List.nodup_append.mp hnd).2.2
      have hk' : p.1 ∈ k :: (rest.map fun b => b.headD "") := by
        rw [heq]
        exact List.mem_cons_self _ _
      exact hdisj hmem hk' 
    have hstep : dictStep d (k :: t) = d ++ [(k, k :: t)] := by
      simp only [dictStep]
      exact dictUpdate_of_not_mem d k (k :: t) hk
    rw [List.foldl_cons, hstep,
      ih (d ++ [(k, k :: t)]) (fun b hb => hne b (List.mem_cons_of_mem _ hb)) ?_]
    · simp
    · rw [List.map_append]
      simp only [List.map_cons, List.map_nil]
      rw [List.append_assoc]
      simpa using hnd

/-- Claim C1 (counterexample): with 51 identical rows the two batches share
the same leading region string, so the second dict insertion overwrites the
first batch — a single one-region batch survives instead of the claimed
`ceil(51/50) = 2` batches covering all 51 regions. -/
theorem get_regions_batch_key_collision :
    ((get_regions (List.replicate 51 ⟨"1", 0, 0⟩)).map Prod.snd).flatten ≠
        (applyCanon (List.replicate 51 ⟨"1", 0, 0⟩)).map regionStr ∧
      (get_regions (List.replicate 51 ⟨"1", 0, 0⟩)).length ≠ (51 + 49) / 50 := by decide

/-- Claim C1 (amended): provided the leading canonical region strings of the
batches are pairwise distinct (which duplicate input rows 50 positions apart
can violate, the Python dict then dropping the earlier batch), the batches
partition the canonical regions exactly: concatenating the batch contents in
order reconstructs the canonical regions in input order, `ceil(N/50)` batches
are produced, and the batch dict is empty exactly for empty input. -/
theorem get_regions_partition (rows : List Row)
    (hkeys :
      (((chunk50 (applyCanon rows)).map (List.map regionStr)).map fun b => b.headD "").Nodup) :
    ((get_regions rows).map Prod.snd).flatten = (applyCanon rows).map regionStr ∧
      (get_regions rows).length = (rows.length + 49) / 50 ∧
      (get_regions rows = [] ↔ rows = []) := by
  have hne : ∀ b ∈ (chunk50 (applyCanon rows)).map (List.map regionStr), b ≠ [] := by
    intro b hb
    obtain ⟨c, hc, rfl⟩ := List.mem_map.mp hb
    have hc' : c ≠ [] := chunksGo_ne_nil 50 (by omega) _ _ c hc
    simpa using hc'
  have hgr : get_regions rows =
      ((chunk50 (applyCanon rows)).map (List.map regionStr)).map fun b => (b.headD "", b) := by
    have hfold := dictBuild_go ((chunk50 (applyCanon rows)).map (List.map regionStr)) []
      hne (by simpa using hkeys)
    unfold get_regions dictBuild
    simpa using hfold
  refine ⟨?_, ?_, ?_⟩
  · rw [hgr, List.map_map]
    have e1 : (Prod.snd ∘ fun b : List String => (b.headD "", b)) = id := rfl
    rw [e1, List.map_id, ← List.map_flatten]
    simp only [chunk50]
    rw [chunksGo_flatten 50 (by omega) _ _ le_rfl]
  · rw [hgr, List.length_map, List.length_map]
    simp only [chunk50]
    rw [chunksGo_length 50 (by omega) _ _ le_rfl, applyCanon_length]
    have h1 : rows.length + 50 - 1 = rows.length + 49 := by omega
    rw [h1]
  · rw [hgr]
    simp only [List.map_eq_nil_iff]
    rw [chunk50_eq_nil_iff, applyCanon_eq_nil_iff]

/-- Claim C1 (witness): two rows give one batch whose contents are the two
canonical regions in order, with `ceil(2/50) = 1` batch. -/
theorem get_regions_partition_witness :
    ((get_regions [⟨"chr1", 1, 2⟩, ⟨"2", 3, 4⟩]).map Prod.snd).flatten =
        (applyCanon [⟨"chr1", 1, 2⟩, ⟨"2", 3, 4⟩]).map regionStr ∧
      (get_regions [⟨"chr1", 1, 2⟩, ⟨"2", 3, 4⟩]).length = (2 + 49) / 50 ∧
      (get_regions [⟨"chr1", 1, 2⟩, ⟨"2", 3, 4⟩] = [] ↔
        ([⟨"chr1", 1, 2⟩, ⟨"2", 3, 4⟩] : List Row) = []) :=
  get_regions_partition [⟨"chr1", 1, 2⟩, ⟨"2", 3, 4⟩] (by decide)

/-- Claim C2 (counterexample): the canonicalization deletes every `"chr"`
substring, not just a prefix — the row `("1chr2", 5, 10)` yields the
canonical region `"12:5..10"`, while the claimed prefix-strip-only rule
would yield `"1chr2:5..10"`. -/
theorem canonical_region_not_prefix_strip :
    ((chunk50 (applyCanon [⟨"1chr2", 5, 10⟩])).map (List.map regionStr)).flatten =
        ["12:5..10"] ∧
      claimCanonChrom "1chr2" ++ ":" ++ toString (5 : Nat) ++ ".." ++ toString (10 : Nat) =
        "1chr2:5..10" ∧
      ("12:5..10" : String) ≠ "1chr2:5..10" := by decide

/-- Claim C2 (amended): the `i`-th canonical region produced by
normalization is `"<chrom>:<start>..<end>"` where, when any input chromosome
contains the substring `"chr"`, the chromosome has every `"chrM"` substring
replaced by `"MT"` and then every `"chr"` substring removed (otherwise it
passes through unchanged, which coincides with the claim since no value
contains `"chr"`); start and end are rendered in natural decimal form with
no padding. -/
theorem canonical_region_form (rows : List Row) (i : Nat) (h : i < rows.length) :
    ((chunk50 (applyCanon rows)).map (List.map regionStr)).flatten[i]? =
      some ((if chrAny rows then canonChrom rows[i].chrom else rows[i].chrom) ++ ":" ++
        toString rows[i].start ++ ".." ++ toString rows[i].end_) := by
  rw [← List.map_flatten]
  simp only [chunk50]
  rw [chunksGo_flatten 50 (by omega) _ _ le_rfl]
  rw [List.getElem?_map]
  unfold applyCanon
  cases hc : chrAny rows <;>
    simp [List.getElem?_map, List.getElem?_eq_getElem h, regionStr]

/-- Claim C2 (witness): the single row `("chr1", 7, 9)` normalizes to the
canonical region `"1:7..9"`. -/
theorem canonical_region_form_witness :
    ((chunk50 (applyCanon [⟨"chr1", 7, 9⟩])).map (List.map regionStr)).flatten[0]? =
      some "1:7..9" := by
  have h := canonical_region_form [⟨"chr1", 7, 9⟩] 0 (by decide)
  rw [h]
  decide

/-! ### Helper lemmas for the catalog sort order -/

theorem lexLe_total : ∀ a b : List Char, lexLe a b || lexLe b a := by
  intro a
  induction a with
  | nil =>
    intro b
    simp [lexLe]
  | cons x xs ih =>
    intro b
    cases b with
    | nil => simp [lexLe]
    | cons y ys =>
      simp only [lexLe, Bool.or_eq_true, Bool.and_eq_true, decide_eq_true_eq]
      rcases Nat.lt_trichotomy x.toNat y.toNat with h | h | h
      · exact Or.inl (Or.inl h)
      · have hih := ih ys
        rw [Bool.or_eq_true] at hih
        rcases hih with h' | h'
        · exact Or.inl (Or.inr ⟨h, h'⟩)
        · exact Or.inr (Or.inr ⟨h.symm, h'⟩)
      · exact Or.inr (Or.inl h)

theorem lexLe_trans : ∀ a b c : List Char, lexLe a b → lexLe b c → lexLe a c := by
  intro a
  induction a with
  | nil =>
    intro b c _ _
    simp [lexLe]
  | cons x xs ih =>
    intro b c hab hbc
    cases b with
    | nil => simp [lexLe] at hab
    | cons y ys =>
      cases c with
      | nil => simp [lexLe] at hbc
      | cons z zs =>
        simp only [lexLe, Bool.or_eq_true, Bool.and_eq_true, decide_eq_true_eq] at hab hbc ⊢
        rcases hab with h1 | ⟨h1, h1'⟩ <;> rcases hbc with h2 | ⟨h2, h2'⟩
        · exact Or.inl (by omega)
        · exact Or.inl (by omega)
        · exact Or.inl (by omega)
        · exact Or.inr ⟨by omega, ih ys zs h1' h2'⟩

unseal List.merge List.mergeSort in
/-- Claim C9: `get_genomes` emits the `(name, display_name)` pairs sorted by
ascending name under the case-sensitive code-point string order, as a
permutation of the fetched entries; in particular `zebra`/`ant` come out as
`ant`, `zebra`. -/
theorem get_genomes_sorted (species : List Genome) :
    ((get_genomes species).map Prod.fst).Pairwise (fun a b => strLeB a b = true) ∧
      (get_genomes species).Perm (species.map fun g => (g.name, g.display_name)) ∧
      get_genomes [⟨"zebra", "Zebrafish"⟩, ⟨"ant", "Ant"⟩] =
        [("ant", "Ant"), ("zebra", "Zebrafish")] := by
  refine ⟨?_, ?_, rfl⟩
  · have hp : (species.mergeSort fun a b => strLeB a.name b.name).Pairwise
        (fun a b => strLeB a.name b.name = true) := by
      have h := @List.sorted_mergeSort Genome (fun a b => strLeB a.name b.name)
        (fun a b c h1 h2 => lexLe_trans _ _ _ h1 h2)
        (fun a b => lexLe_total _ _) species
      simpa using h
    unfold get_genomes
    rw [List.map_map]
    exact List.pairwise_map.mpr hp
  · unfold get_genomes
    exact (List.mergeSort_perm species _).map _

end GetSeq
